/-
Verification of the hangman game in src/hangman.py.

The game logic is shallowly embedded: Python strings become `List Char`,
the Python set `guessed_letters` becomes a `Finset Char`, Python ints
become `Int` (for scores) or `Nat` (for counters that the program never
decrements below zero).  Python's `str.isalpha` / `str.lower` are modelled
on the ASCII range via `Char.isAlpha` / `Char.toLower`, matching the
program's data (all words are lowercase ASCII).
-/
import Mathlib

namespace Hangman

/-! ## Difficulty table (src/hangman.py lines 45-49) -/

/-- The three keys of the `difficulty_levels` dictionary. -/
inductive Difficulty where
  | easy
  | medium
  | hard
deriving DecidableEq

/-- One entry of `difficulty_levels`: `{'max_wrong': …, 'hint': …}`. -/
structure DifficultySetting where
  max_wrong : Nat
  hint : Bool
deriving DecidableEq

/-- `difficulty_levels` (lines 45-49). -/
def difficulty_levels : Difficulty → DifficultySetting
  | .easy => { max_wrong := 8, hint := true }
  | .medium => { max_wrong := 6, hint := true }
  | .hard => { max_wrong := 4, hint := false }

/-! ## Scoring (src/hangman.py lines 204-209) -/

/-- The `difficulty_multiplier` dictionary inside `calculate_score` (line 206). -/
def difficulty_multiplier : Difficulty → Int
  | .easy => 1
  | .medium => 2
  | .hard => 3

/-- `calculate_score(difficulty, word_length, wrong_attempts)` (lines 204-209). -/
def calculate_score (difficulty : Difficulty) (word_length wrong_attempts : Int) : Int :=
  let base_score := word_length * 10
  let penalty := wrong_attempts * 5
  max 0 (base_score - penalty) * difficulty_multiplier difficulty

/-! ## Hangman ASCII art (src/hangman.py lines 52-95) -/

/-- `hangman_pics` (lines 52-95): the seven drawing stages. -/
def hangman_pics : List String :=
  [ "\n      +---+\n          |\n          |\n          |\n         ===",
    "\n      +---+\n      O   |\n          |\n          |\n         ===",
    "\n      +---+\n      O   |\n      |   |\n          |\n         ===",
    "\n      +---+\n      O   |\n     /|   |\n          |\n         ===",
    "\n      +---+\n      O   |\n     /|\\  |\n          |\n         ===",
    "\n      +---+\n      O   |\n     /|\\  |\n     /    |\n         ===",
    "\n      +---+\n      O   |\n     /|\\  |\n     / \\  |\n         ===" ]

/-- The index computation in `display_game_state` (line 184):
`hangman_stage = min(wrong_attempts, len(hangman_pics) - 1)`. -/
def hangman_stage (wrong_attempts : Nat) : Nat :=
  min wrong_attempts (hangman_pics.length - 1)

/-! ## Round state (src/hangman.py lines 219-226) -/

/-- The mutable variables of one round of `play_hangman`:
`word`, `guessed_letters`, `wrong_attempts`, `max_wrong`,
`difficulty_settings['hint']` and `hint_used`. -/
structure RoundState where
  word : List Char
  guessed_letters : Finset Char
  wrong_attempts : Nat
  max_wrong : Nat
  hint_allowed : Bool
  hint_used : Bool
deriving DecidableEq

/-- The initialisation at lines 219-226: `guessed_letters = set()`,
`wrong_attempts = 0`, `hint_used = False`. -/
def init_state (word : List Char) (max_wrong : Nat) (hint_allowed : Bool) : RoundState :=
  { word := word
    guessed_letters := ∅
    wrong_attempts := 0
    max_wrong := max_wrong
    hint_allowed := hint_allowed
    hint_used := false }

/-! ## Guess processing (src/hangman.py lines 260-293) -/

/-- Python's `str.isalpha()`: true iff the string is nonempty and every
character is alphabetic (modelled on the ASCII range). -/
def str_isalpha (s : List Char) : Bool :=
  !s.isEmpty && s.all (fun c => c.isAlpha)

/-- Python's `str.lower()` applied character by character (line 260). -/
def str_lower (s : List Char) : List Char :=
  s.map Char.toLower

/-- Result of the guess-validation-and-processing block (lines 275-293). -/
inductive SubmitTag where
  | invalidInput
  | accepted (correct : Bool)
deriving DecidableEq

/-- Lines 275-293 of `play_hangman`: validate a (already lowercased) guess
and, when valid and new, add it to `guessed_letters`, incrementing
`wrong_attempts` when the letter is not in `word`.  Returns the resulting
state; an invalid guess leaves the state untouched (`continue` after a
warning).  At the point where `c` is read the guess is known to have
exactly one character, so `headD` never falls back to its default. -/
def submitGuess (st : RoundState) (guess : List Char) : SubmitTag × RoundState :=
  if str_isalpha guess = false ∨ guess.length ≠ 1 then (.invalidInput, st)
  else
    let c := guess.headD 'a'
    if c ∈ st.guessed_letters then (.invalidInput, st)
    else
      let st1 := { st with guessed_letters := insert c st.guessed_letters }
      if c ∈ st.word then (.accepted true, st1)
      else (.accepted false, { st1 with wrong_attempts := st1.wrong_attempts + 1 })

/-- `get_hint(word, guessed_letters)` (lines 172-177).  `random.choice` over
the non-guessed letters is modelled by an arbitrary index `n`, reduced
modulo the length of the candidate list. -/
def get_hint (n : Nat) (word : List Char) (guessed_letters : Finset Char) : Option Char :=
  let not_guessed := word.filter (fun c => decide (c ∉ guessed_letters))
  match not_guessed with
  | [] => none
  | c :: cs => some ((c :: cs).get ⟨n % (c :: cs).length, Nat.mod_lt _ (Nat.succ_pos _)⟩)

/-- What the input-handling part of one loop iteration did. -/
inductive InputTag where
  | aborted
  | hinted (letter : Option Char)
  | submitted (tag : SubmitTag)
deriving DecidableEq

/-- Lines 260-293 of `play_hangman`: read one line, lowercase it
(line 260), then in order: `'!'` aborts (lines 263-266), `'?'` with hints
allowed and unused consumes the hint (lines 268-273), anything else goes
through guess validation and processing. -/
def handle_input (st : RoundState) (n : Nat) (raw : List Char) : InputTag × RoundState :=
  let guess := str_lower raw
  if guess = ['!'] then (.aborted, st)
  else if guess = ['?'] ∧ st.hint_allowed = true ∧ st.hint_used = false then
    (.hinted (get_hint n st.word st.guessed_letters), { st with hint_used := true })
  else
    let r := submitGuess st guess
    (.submitted r.1, r.2)

/-! ## Terminal check and loop step (src/hangman.py lines 229-293) -/

/-- Terminal outcomes reported at the top of the game loop. -/
inductive Outcome where
  | won
  | lost
deriving DecidableEq

/-- The two checks at the top of the loop body, in source order: win at
lines 233-243 (`all(letter in guessed_letters for letter in word)`), loss
at lines 246-249 (`wrong_attempts >= max_wrong`). -/
def check_terminal (st : RoundState) : Option Outcome :=
  if st.word.all (fun c => decide (c ∈ st.guessed_letters)) then some .won
  else if st.max_wrong ≤ st.wrong_attempts then some .lost
  else none

/-- Result of one full iteration of the `while not game_over` loop. -/
inductive LoopResult where
  | finished (o : Outcome)
  | aborted
  | running (st : RoundState)
deriving DecidableEq

/-- One iteration of the main loop (lines 229-295): first the terminal
checks, then — only when the round is still open — the input handling. -/
def loop_step (st : RoundState) (n : Nat) (raw : List Char) : LoopResult :=
  match check_terminal st with
  | some o => .finished o
  | none =>
    let r := handle_input st n raw
    match r.1 with
    | .aborted => .aborted
    | _ => .running r.2

/-- Round states reachable from the start of a round by any sequence of
input lines (each with an arbitrary hint-randomness index). -/
inductive Reachable (word : List Char) (mw : Nat) (ha : Bool) : RoundState → Prop where
  | init : Reachable word mw ha (init_state word mw ha)
  | step {st st' : RoundState} (n : Nat) (raw : List Char) :
      Reachable word mw ha st → loop_step st n raw = .running st' →
      Reachable word mw ha st'

/-- Running a list of single-letter guesses through the guess-processing
block, one per loop iteration. -/
def run_guesses (st : RoundState) (ls : List Char) : RoundState :=
  ls.foldl (fun s c => (submitGuess s [c]).2) st

/-- C2's invariant: `wrong_attempts` equals the number of guessed letters
that do not occur in `word`. -/
def wrong_invariant (st : RoundState) : Prop :=
  st.wrong_attempts = (st.guessed_letters.filter (fun c => c ∉ st.word)).card

/-! ## Score persistence (src/hangman.py lines 101-117)

The JSON file behind `load_scores`/`save_score` is modelled as the result
of `open` + `json.load`: `none` when that raises `FileNotFoundError` or
`json.JSONDecodeError` (missing or unparsable file), `some d` when the
file parses to a JSON object `d`, modelled as an ordered key/value list. -/

/-- A parsed JSON object with integer values, in key order. -/
def ScoresDict : Type := List (String × Int)

instance : DecidableEq ScoresDict := by
  unfold ScoresDict
  infer_instance

/-- Python dictionary assignment `d[k] = v`: replace the value of an
existing key in place, or append a new binding at the end. -/
def dict_set : ScoresDict → String → Int → ScoresDict
  | [], k, v => [(k, v)]
  | (k', v') :: rest, k, v =>
      if k' = k then (k, v) :: rest else (k', v') :: dict_set rest k v

/-- `load_scores()` (lines 101-107): return the parsed file content as is;
only when opening or parsing fails (the two caught exceptions) fall back
to `{'easy': 0, 'medium': 0, 'hard': 0}`. -/
def load_scores (store : Option ScoresDict) : ScoresDict :=
  match store with
  | some scores => scores
  | none => [("easy", 0), ("medium", 0), ("hard", 0)]

/-- `save_score(difficulty, score)` (lines 109-117): reload the scores,
compare with `scores[difficulty]` and overwrite the file only on strict
improvement, returning whether an update occurred.  The subscript
`scores[difficulty]` raises `KeyError` when the key is absent, modelled
as `none`. -/
def save_score (store : Option ScoresDict) (difficulty : String) (score : Int) :
    Option (Bool × Option ScoresDict) :=
  let scores := load_scores store
  match scores.lookup difficulty with
  | none => none
  | some current =>
      if score > current then
        some (true, some (dict_set scores difficulty score))
      else
        some (false, store)

/-- Whether a parsed score record carries all three difficulty keys. -/
def has_all_difficulties (d : ScoresDict) : Bool :=
  (d.lookup "easy").isSome && (d.lookup "medium").isSome && (d.lookup "hard").isSome

/-! ## Helper lemmas -/

theorem dict_set_lookup (d : ScoresDict) (k : String) (v : Int) :
    (dict_set d k v).lookup k = some v := by
  induction d with
  | nil => simp [dict_set, List.lookup]
  | cons kv rest ih =>
      obtain ⟨k', v'⟩ := kv
      by_cases h : k' = k
      · subst h
        simp [dict_set, List.lookup]
      · simp only [dict_set, if_neg h, List.lookup]
        rw [beq_eq_false_iff_ne.mpr (Ne.symm h)]
        exact ih

/-! ## C1: the scoring formula -/

/-- C1: `calculate_score` equals
`max(0, wordLength*10 - wrongCount*5) * multiplier(difficulty)` with
multiplier easy:1, medium:2, hard:3 (floor applied before multiplying),
and in particular evaluates to 50, 80 and 0 on the three quoted inputs. -/
theorem calculate_score_spec :
    (∀ (d : Difficulty) (wl wa : Int),
        calculate_score d wl wa = max 0 (wl * 10 - wa * 5) * difficulty_multiplier d) ∧
    difficulty_multiplier .easy = 1 ∧
    difficulty_multiplier .medium = 2 ∧
    difficulty_multiplier .hard = 3 ∧
    calculate_score .easy 5 0 = 50 ∧
    calculate_score .medium 5 2 = 80 ∧
    calculate_score .hard 3 10 = 0 :=
  ⟨fun _ _ _ => rfl, rfl, rfl, rfl, by decide, by decide, by decide⟩

/-! ## C9: the hangman drawing index is always in bounds -/

/-- C9: `display_game_state` indexes `hangman_pics` at
`min(wrong_attempts, len(hangman_pics)-1) = min(wrong_attempts, 6)`, which
is in bounds for every `wrong_attempts`, even though easy difficulty
allows `max_wrong = 8 > 6` wrong guesses. -/
theorem display_game_state_index_safe :
    (∀ wrong_attempts : Nat,
        hangman_stage wrong_attempts < hangman_pics.length ∧
        hangman_stage wrong_attempts = min wrong_attempts 6 ∧
        (hangman_pics[hangman_stage wrong_attempts]?).isSome = true) ∧
    hangman_pics.length = 7 ∧
    (difficulty_levels .easy).max_wrong = 8 ∧
    hangman_pics.length - 1 < (difficulty_levels .easy).max_wrong := by
  refine ⟨fun w => ?_, rfl, rfl, by decide⟩
  have he : hangman_stage w = min w 6 := rfl
  have hle : min w 6 ≤ 6 := Nat.min_le_right w 6
  have hlt : hangman_stage w < hangman_pics.length := by
    rw [he]
    show min w 6 < 7
    omega
  refine ⟨hlt, he, ?_⟩
  rw [List.getElem?_eq_getElem hlt]
  rfl

/-! ## C8: win is checked before loss -/

/-- C8: whenever every letter of `word` is in `guessed_letters`, the
terminal check reports `Won`, even when `wrong_attempts >= max_wrong`
also holds: the win check at line 233 runs before the loss check at
line 246. -/
theorem win_checked_before_loss (st : RoundState)
    (h : ∀ c ∈ st.word, c ∈ st.guessed_letters) :
    check_terminal st = some .won := by
  have hb : st.word.all (fun c => decide (c ∈ st.guessed_letters)) = true := by
    simp only [List.all_eq_true, decide_eq_true_eq]
    exact h
  unfold check_terminal
  rw [if_pos hb]

/-- Witness for C8 at a state where the loss condition also holds
(`wrong_attempts = 10 ≥ max_wrong = 4`). -/
theorem win_checked_before_loss_witness :
    check_terminal
      { word := ['a'], guessed_letters := {'a'}, wrong_attempts := 10,
        max_wrong := 4, hint_allowed := false, hint_used := false } = some .won ∧
    (4 : Nat) ≤ 10 :=
  ⟨win_checked_before_loss _ (by decide), by decide⟩

/-! ## C6: load_scores -/

/-- C6 counterexample: a backing store that parses successfully to the
empty JSON object is returned as is, so the loaded record is missing all
three difficulty keys — `load_scores` does not default individual
missing entries. -/
theorem load_scores_missing_keys_cex :
    load_scores (some ([] : ScoresDict)) = ([] : ScoresDict) ∧
    has_all_difficulties (load_scores (some ([] : ScoresDict))) = false :=
  ⟨rfl, rfl⟩

/-- C6 amended: `load_scores` never fails the caller; a missing or
unparsable backing store yields `{easy:0, medium:0, hard:0}` (which has
all three keys), but a store that parses successfully is returned as is,
without per-entry defaulting. -/
theorem load_scores_amended :
    load_scores none = [("easy", 0), ("medium", 0), ("hard", 0)] ∧
    has_all_difficulties (load_scores none) = true ∧
    (∀ d : ScoresDict, load_scores (some d) = d) :=
  ⟨rfl, rfl, fun _ => rfl⟩

/-! ## C7: save_score -/

/-- C7: when the loaded record carries the difficulty key, `save_score`
overwrites the stored value exactly when the candidate score is strictly
greater (returning `true` and storing the candidate), and otherwise
returns `false` leaving the store untouched. -/
theorem save_score_updates_iff_greater (store : Option ScoresDict) (difficulty : String)
    (score current : Int)
    (h : (load_scores store).lookup difficulty = some current) :
    (current < score →
        save_score store difficulty score =
          some (true, some (dict_set (load_scores store) difficulty score)) ∧
        (dict_set (load_scores store) difficulty score).lookup difficulty = some score) ∧
    (score ≤ current →
        save_score store difficulty score = some (false, store)) := by
  constructor
  · intro hgt
    refine ⟨?_, dict_set_lookup _ _ _⟩
    simp only [save_score, h]
    rw [if_pos hgt]
  · intro hle
    simp only [save_score, h]
    rw [if_neg (not_lt.mpr hle)]

/-- Witness for C7: the spec's example sequence starting from a missing
store: `save('easy',40)` updates, `save('easy',30)` is refused leaving 40
stored, `save('easy',50)` updates to 50. -/
theorem save_score_updates_iff_greater_witness :
    save_score none "easy" 40 =
      some (true, some [("easy", 40), ("medium", 0), ("hard", 0)]) ∧
    save_score (some [("easy", 40), ("medium", 0), ("hard", 0)]) "easy" 30 =
      some (false, some [("easy", 40), ("medium", 0), ("hard", 0)]) ∧
    save_score (some [("easy", 40), ("medium", 0), ("hard", 0)]) "easy" 50 =
      some (true, some [("easy", 50), ("medium", 0), ("hard", 0)]) ∧
    ([("easy", 50), ("medium", 0), ("hard", 0)] : ScoresDict).lookup "easy" = some 50 := by
  refine ⟨?_, ?_, ?_, by decide⟩
  · have h := (save_score_updates_iff_greater none "easy" 40 0 (by decide)).1 (by decide)
    rw [h.1]
    decide
  · exact (save_score_updates_iff_greater (some [("easy", 40), ("medium", 0), ("hard", 0)])
      "easy" 30 40 (by decide)).2 (by decide)
  · have h := (save_score_updates_iff_greater (some [("easy", 40), ("medium", 0), ("hard", 0)])
      "easy" 50 40 (by decide)).1 (by decide)
    rw [h.1]
    decide

/-! ## C4: guess validation rejects malformed and repeated guesses -/

/-- C4: every guess that is not exactly one alphabetic character (empty,
multi-character, non-alphabetic), and every single letter already in
`guessed_letters`, is rejected as `InvalidInput` with the round state
returned untouched. -/
theorem submitGuess_rejects_invalid (st : RoundState) (guess : List Char)
    (h : ¬(str_isalpha guess = true ∧ guess.length = 1) ∨
         ∃ c, guess = [c] ∧ c ∈ st.guessed_letters) :
    submitGuess st guess = (.invalidInput, st) := by
  rcases h with h | ⟨c, rfl, hc⟩
  · unfold submitGuess
    rw [if_pos]
    rcases Bool.eq_false_or_eq_true (str_isalpha guess) with hb | hb
    · exact Or.inr fun hlen => h ⟨hb, hlen⟩
    · exact Or.inl hb
  · unfold submitGuess
    by_cases hval : str_isalpha [c] = false ∨ [c].length ≠ 1
    · rw [if_pos hval]
    · rw [if_neg hval]
      simp only [List.headD_cons]
      rw [if_pos hc]

/-- Witness for C4: the empty input is rejected and the state returned
unchanged. -/
theorem submitGuess_rejects_invalid_witness :
    submitGuess (init_state ['a'] 4 false) [] = (.invalidInput, init_state ['a'] 4 false) :=
  submitGuess_rejects_invalid _ _ (Or.inl (by decide))

/-! ## C2: wrong_attempts counts the guessed letters outside the word -/

theorem submitGuess_wrong_invariant (st : RoundState) (g : List Char)
    (h : wrong_invariant st) : wrong_invariant (submitGuess st g).2 := by
  unfold submitGuess
  split
  · exact h
  · set c := g.headD 'a' with hc
    by_cases hmem : c ∈ st.guessed_letters
    · rw [if_pos hmem]
      exact h
    · rw [if_neg hmem]
      by_cases hword : c ∈ st.word
      · rw [if_pos hword]
        unfold wrong_invariant at h ⊢
        simp only
        rw [Finset.filter_insert, if_neg (by simp [hword])]
        exact h
      · rw [if_neg hword]
        unfold wrong_invariant at h ⊢
        simp only
        rw [Finset.filter_insert, if_pos (by simp [hword]),
          Finset.card_insert_of_not_mem (fun hin => hmem (Finset.mem_of_mem_filter _ hin))]
        omega

theorem handle_input_wrong_invariant (st : RoundState) (n : Nat) (raw : List Char)
    (h : wrong_invariant st) : wrong_invariant (handle_input st n raw).2 := by
  unfold handle_input
  dsimp only
  split
  · exact h
  · split
    · exact h
    · exact submitGuess_wrong_invariant st _ h

/-- C2: in every reachable round state — any sequence of input lines
starting from `guessed_letters = ∅`, `wrong_attempts = 0` —
`wrong_attempts` equals the number of guessed letters not present in
`word`. -/
theorem reachable_wrong_invariant (word : List Char) (mw : Nat) (ha : Bool)
    (st : RoundState) (h : Reachable word mw ha st) : wrong_invariant st := by
  induction h with
  | init => simp [wrong_invariant, init_state]
  | step n raw hr hstep ih =>
      unfold loop_step at hstep
      split at hstep
      · cases hstep
      · dsimp only at hstep
        split at hstep
        all_goals cases hstep
        all_goals exact handle_input_wrong_invariant _ _ _ ih

/-- Witness for C2: the invariant at the state reached after guessing the
wrong letter `x` against the word `ab`. -/
theorem reachable_wrong_invariant_witness :
    wrong_invariant
      { word := ['a', 'b'], guessed_letters := {'x'}, wrong_attempts := 1,
        max_wrong := 4, hint_allowed := false, hint_used := false } :=
  reachable_wrong_invariant ['a', 'b'] 4 false _
    (Reachable.step 0 ['x'] Reachable.init (by decide))

/-! ## C3: the round is lost exactly when wrong_attempts reaches max_wrong -/

theorem submitGuess_wrong_letter (st : RoundState) (c : Char)
    (hal : c.isAlpha = true) (hng : c ∉ st.guessed_letters) (hnw : c ∉ st.word) :
    submitGuess st [c] =
      (.accepted false,
        { st with guessed_letters := insert c st.guessed_letters,
                  wrong_attempts := st.wrong_attempts + 1 }) := by
  unfold submitGuess
  rw [if_neg (by simp [str_isalpha, hal])]
  simp only [List.headD_cons]
  rw [if_neg hng, if_neg hnw]

theorem run_guesses_spec (ls : List Char) : ∀ st : RoundState,
    (∀ c ∈ ls, c.isAlpha = true ∧ c ∉ st.word ∧ c ∉ st.guessed_letters) →
    ls.Nodup →
    (run_guesses st ls).word = st.word ∧
    (run_guesses st ls).guessed_letters = st.guessed_letters ∪ ls.toFinset ∧
    (run_guesses st ls).wrong_attempts = st.wrong_attempts + ls.length ∧
    (run_guesses st ls).max_wrong = st.max_wrong := by
  induction ls with
  | nil =>
      intro st _ _
      simp [run_guesses]
  | cons c rest ih =>
      intro st h hnd
      have hc := h c (List.mem_cons_self c rest)
      have hstep := submitGuess_wrong_letter st c hc.1 hc.2.2 hc.2.1
      have hrun : run_guesses st (c :: rest) =
          run_guesses { st with guessed_letters := insert c st.guessed_letters,
                                wrong_attempts := st.wrong_attempts + 1 } rest := by
        unfold run_guesses
        simp only [List.foldl_cons]
        rw [hstep]
      have hrest : ∀ c' ∈ rest, c'.isAlpha = true ∧
          c' ∉ ({ st with guessed_letters := insert c st.guessed_letters,
                          wrong_attempts := st.wrong_attempts + 1 } : RoundState).word ∧
          c' ∉ ({ st with guessed_letters := insert c st.guessed_letters,
                          wrong_attempts := st.wrong_attempts + 1 } : RoundState).guessed_letters := by
        intro c' hc'
        have h' := h c' (List.mem_cons_of_mem _ hc')
        refine ⟨h'.1, h'.2.1, ?_⟩
        simp only [Finset.mem_insert, not_or]
        exact ⟨fun he => (List.nodup_cons.mp hnd).1 (he ▸ hc'), h'.2.2⟩
      obtain ⟨hw, hg, hwr, hm⟩ := ih _ hrest (List.nodup_cons.mp hnd).2
      rw [hrun]
      refine ⟨hw, ?_, ?_, hm⟩
      · rw [hg]
        simp only [List.toFinset_cons, Finset.union_insert, Finset.insert_union]
      · rw [hwr]
        simp only [List.length_cons]
        omega

/-- C3: when `max_wrong` distinct valid incorrect letters are submitted
from the start of a round (with `max_wrong = ls.length`), after each
prefix of `k` guesses `wrong_attempts = k`, and the terminal check
reports `Lost` exactly when `k` reaches `max_wrong` — and, in general,
the terminal check never reports `Lost` while
`wrong_attempts < max_wrong`. -/
theorem lost_exactly_at_max_wrong (word : List Char) (ha : Bool) (ls : List Char)
    (hw : word ≠ []) (hnd : ls.Nodup)
    (hvalid : ∀ c ∈ ls, c.isAlpha = true ∧ c ∉ word) :
    (∀ st : RoundState, check_terminal st = some .lost → st.max_wrong ≤ st.wrong_attempts) ∧
    ∀ k, k ≤ ls.length →
      (run_guesses (init_state word ls.length ha) (ls.take k)).wrong_attempts = k ∧
      (check_terminal (run_guesses (init_state word ls.length ha) (ls.take k)) = some .lost ↔
        k = ls.length) := by
  constructor
  · intro st hst
    unfold check_terminal at hst
    split at hst
    · exact absurd hst (by simp)
    · split at hst
      · assumption
      · cases hst
  · intro k hk
    have hsub : (ls.take k).Sublist ls := List.take_sublist k ls
    have hvt : ∀ c ∈ ls.take k, c.isAlpha = true ∧
        c ∉ (init_state word ls.length ha).word ∧
        c ∉ (init_state word ls.length ha).guessed_letters := by
      intro c hcm
      have h' := hvalid c (hsub.subset hcm)
      exact ⟨h'.1, h'.2, by simp [init_state]⟩
    obtain ⟨hwd, hg, hwr, hm⟩ := run_guesses_spec (ls.take k) _ hvt (hnd.sublist hsub)
    have hlen : (ls.take k).length = k := by
      rw [List.length_take]
      omega
    have hwr' : (run_guesses (init_state word ls.length ha) (ls.take k)).wrong_attempts = k := by
      rw [hwr, hlen]
      simp [init_state]
    refine ⟨hwr', ?_⟩
    obtain ⟨c0, hc0⟩ : ∃ c0, c0 ∈ word := by
      cases word with
      | nil => exact absurd rfl hw
      | cons a l => exact ⟨a, List.mem_cons_self a l⟩
    have hgw : ∀ c ∈ (run_guesses (init_state word ls.length ha) (ls.take k)).guessed_letters,
        c ∉ word := by
      intro c hcg
      rw [hg] at hcg
      simp only [init_state, Finset.empty_union, List.mem_toFinset] at hcg
      exact (hvalid c (hsub.subset hcg)).2
    have hwin : ((run_guesses (init_state word ls.length ha) (ls.take k)).word.all
        (fun c => decide (c ∈
          (run_guesses (init_state word ls.length ha) (ls.take k)).guessed_letters))) = false := by
      rw [hwd]
      simp only [init_state]
      rw [List.all_eq_false]
      exact ⟨c0, hc0, by simpa using fun hin => hgw c0 hin hc0⟩
    have hmax : (run_guesses (init_state word ls.length ha) (ls.take k)).max_wrong = ls.length := by
      rw [hm]
      simp [init_state]
    unfold check_terminal
    rw [hwin]
    simp only [Bool.false_eq_true, if_false]
    rw [hmax, hwr']
    by_cases hle : ls.length ≤ k
    · rw [if_pos hle]
      simp only [Option.some.injEq, true_iff]
      omega
    · rw [if_neg hle]
      constructor
      · intro hfalse
        cases hfalse
      · intro heq
        omega

/-- Witness for C3: word `ab`, two distinct wrong letters `x`, `y`,
`max_wrong = 2`. -/
theorem lost_exactly_at_max_wrong_witness :
    (∀ st : RoundState, check_terminal st = some .lost → st.max_wrong ≤ st.wrong_attempts) ∧
    ∀ k, k ≤ (['x', 'y'] : List Char).length →
      (run_guesses (init_state ['a', 'b'] (['x', 'y'] : List Char).length false)
        ((['x', 'y'] : List Char).take k)).wrong_attempts = k ∧
      (check_terminal (run_guesses (init_state ['a', 'b'] (['x', 'y'] : List Char).length false)
        ((['x', 'y'] : List Char).take k)) = some .lost ↔
        k = (['x', 'y'] : List Char).length) :=
  lost_exactly_at_max_wrong ['a', 'b'] false ['x', 'y'] (by decide) (by decide) (by decide)

/-! ## C5: a hint can be consumed at most once per round -/

theorem get_hint_mem (n : Nat) (word : List Char) (guessed : Finset Char) (c : Char)
    (h : get_hint n word guessed = some c) : c ∈ word ∧ c ∉ guessed := by
  unfold get_hint at h
  dsimp only at h
  split at h
  · cases h
  next a as heq =>
    injection h with h'
    have hm : c ∈ a :: as := h' ▸ List.get_mem _ _ _
    rw [← heq] at hm
    have h2 := List.mem_filter.mp hm
    simpa using h2

theorem get_hint_none_iff (n : Nat) (word : List Char) (guessed : Finset Char) :
    get_hint n word guessed = none ↔ ∀ c ∈ word, c ∈ guessed := by
  unfold get_hint
  dsimp only
  split
  next heq =>
    rw [List.filter_eq_nil_iff] at heq
    simp only [decide_eq_true_eq, not_not] at heq
    exact iff_of_true rfl heq
  next a as heq =>
    constructor
    · intro hfalse
      cases hfalse
    · intro hall
      exfalso
      have hmem : a ∈ List.filter (fun c => decide (c ∉ guessed)) word := by
        rw [heq]
        exact List.mem_cons_self a as
      have h2 := List.mem_filter.mp hmem
      simp only [decide_eq_true_eq] at h2
      exact h2.2 (hall a h2.1)

/-- C5: with hints allowed and unused, `'?'` is answered with
`get_hint`'s letter — a letter of `word` not yet guessed, or `None` when
every letter of `word` is guessed — and `hint_used` becomes true in
either case; on the resulting state a second `'?'` is never answered
with a hint again: it falls through to guess validation and is rejected
with the state unchanged. -/
theorem requestHint_spec (st : RoundState) (n : Nat)
    (hallow : st.hint_allowed = true) (hunused : st.hint_used = false) :
    handle_input st n ['?'] =
      (.hinted (get_hint n st.word st.guessed_letters), { st with hint_used := true }) ∧
    (∀ c, get_hint n st.word st.guessed_letters = some c →
        c ∈ st.word ∧ c ∉ st.guessed_letters) ∧
    (get_hint n st.word st.guessed_letters = none ↔ ∀ c ∈ st.word, c ∈ st.guessed_letters) ∧
    (∀ m, handle_input { st with hint_used := true } m ['?'] =
        (.submitted .invalidInput, { st with hint_used := true })) := by
  have hql : str_lower ['?'] = ['?'] := by decide
  refine ⟨?_, fun c => get_hint_mem n st.word st.guessed_letters c,
    get_hint_none_iff n st.word st.guessed_letters, fun m => ?_⟩
  · unfold handle_input
    dsimp only
    rw [hql, if_neg (by decide), if_pos ⟨rfl, hallow, hunused⟩]
  · unfold handle_input
    dsimp only
    rw [hql, if_neg (by decide), if_neg (by simp)]
    have hsub : submitGuess { st with hint_used := true } ['?'] =
        (.invalidInput, { st with hint_used := true }) := by
      unfold submitGuess
      rw [if_pos (Or.inl (by decide))]
    rw [hsub]

/-- Witness for C5 on a concrete open round with hints allowed. -/
theorem requestHint_spec_witness :
    handle_input
        { word := ['a', 'b'], guessed_letters := ∅, wrong_attempts := 0,
          max_wrong := 6, hint_allowed := true, hint_used := false } 0 ['?'] =
      (.hinted (get_hint 0 ['a', 'b'] ∅),
        { word := ['a', 'b'], guessed_letters := ∅, wrong_attempts := 0,
          max_wrong := 6, hint_allowed := true, hint_used := true }) ∧
    (∀ c, get_hint 0 ['a', 'b'] ∅ = some c → c ∈ (['a', 'b'] : List Char) ∧ c ∉ (∅ : Finset Char)) ∧
    (get_hint 0 ['a', 'b'] ∅ = none ↔ ∀ c ∈ (['a', 'b'] : List Char), c ∈ (∅ : Finset Char)) ∧
    (∀ m, handle_input
        { word := ['a', 'b'], guessed_letters := ∅, wrong_attempts := 0,
          max_wrong := 6, hint_allowed := true, hint_used := true } m ['?'] =
      (.submitted .invalidInput,
        { word := ['a', 'b'], guessed_letters := ∅, wrong_attempts := 0,
          max_wrong := 6, hint_allowed := true, hint_used := true })) :=
  requestHint_spec
    { word := ['a', 'b'], guessed_letters := ∅, wrong_attempts := 0,
      max_wrong := 6, hint_allowed := true, hint_used := false } 0 rfl rfl

/-! ## C10: input is lowercased before validation and processing -/

theorem uint32_le_iff_toNat_le {a b : UInt32} : a ≤ b ↔ a.toNat ≤ b.toNat :=
  Iff.rfl

theorem char_ofNat_toNat {n : Nat} (h : n < 55296) : (Char.ofNat n).toNat = n := by
  rw [Char.ofNat, dif_pos (Or.inl h : n.isValidChar)]
  rfl

theorem char_isUpper_iff {c : Char} : c.isUpper = true ↔ 65 ≤ c.toNat ∧ c.toNat ≤ 90 := by
  have h65 : (65 : UInt32).toNat = 65 := rfl
  have h90 : (90 : UInt32).toNat = 90 := rfl
  simp only [Char.isUpper, Bool.and_eq_true, decide_eq_true_eq, ge_iff_le]
  rw [uint32_le_iff_toNat_le, uint32_le_iff_toNat_le, h65, h90]
  exact Iff.rfl

theorem char_isLower_iff {c : Char} : c.isLower = true ↔ 97 ≤ c.toNat ∧ c.toNat ≤ 122 := by
  have h97 : (97 : UInt32).toNat = 97 := rfl
  have h122 : (122 : UInt32).toNat = 122 := rfl
  simp only [Char.isLower, Bool.and_eq_true, decide_eq_true_eq, ge_iff_le]
  rw [uint32_le_iff_toNat_le, uint32_le_iff_toNat_le, h97, h122]
  exact Iff.rfl

theorem char_isAlpha_iff {c : Char} :
    c.isAlpha = true ↔ (65 ≤ c.toNat ∧ c.toNat ≤ 90) ∨ (97 ≤ c.toNat ∧ c.toNat ≤ 122) := by
  simp only [Char.isAlpha, Bool.or_eq_true, char_isUpper_iff, char_isLower_iff]

theorem char_toLower_toNat_of_upper {c : Char} (h1 : 65 ≤ c.toNat) (h2 : c.toNat ≤ 90) :
    c.toLower.toNat = c.toNat + 32 := by
  unfold Char.toLower
  dsimp only
  rw [if_pos (⟨h1, h2⟩ : c.toNat ≥ 65 ∧ c.toNat ≤ 90)]
  exact char_ofNat_toNat (by omega)

theorem char_toLower_of_not_upper {c : Char} (h : ¬(65 ≤ c.toNat ∧ c.toNat ≤ 90)) :
    c.toLower = c := by
  unfold Char.toLower
  dsimp only
  rw [if_neg h]

theorem char_toLower_toNat_bounds {c : Char} (h : c.isAlpha = true) :
    97 ≤ c.toLower.toNat ∧ c.toLower.toNat ≤ 122 := by
  rcases char_isAlpha_iff.mp h with ⟨h1, h2⟩ | ⟨h1, h2⟩
  · rw [char_toLower_toNat_of_upper h1 h2]
    omega
  · rw [char_toLower_of_not_upper (by omega)]
    exact ⟨h1, h2⟩

theorem char_toLower_isAlpha {c : Char} (h : c.isAlpha = true) : c.toLower.isAlpha = true :=
  char_isAlpha_iff.mpr (Or.inr (char_toLower_toNat_bounds h))

theorem char_toLower_idem {c : Char} (h : c.isAlpha = true) :
    c.toLower.toLower = c.toLower := by
  have hb := char_toLower_toNat_bounds h
  exact char_toLower_of_not_upper (by omega)

theorem char_toLower_ne_special {c : Char} (h : c.isAlpha = true) :
    c.toLower ≠ '!' ∧ c.toLower ≠ '?' := by
  have hb := char_toLower_toNat_bounds h
  constructor
  · intro he
    rw [he] at hb
    have h33 : ('!').toNat = 33 := rfl
    omega
  · intro he
    rw [he] at hb
    have h63 : ('?').toNat = 63 := rfl
    omega

/-- C10: input is lowercased (line 260) before any validation or
processing, so a single alphabetic character is handled exactly like its
lowercase form: guessing it adds the lowercase letter to
`guessed_letters`, and afterwards any character with the same lowercase
form is rejected as already guessed, leaving the state unchanged. -/
theorem input_lowercased (st : RoundState) (n : Nat) (c : Char) (h : c.isAlpha = true) :
    handle_input st n [c] = handle_input st n [c.toLower] ∧
    (c.toLower ∉ st.guessed_letters →
      ∃ st', handle_input st n [c] =
          (.submitted (.accepted (decide (c.toLower ∈ st.word))), st') ∧
        st'.guessed_letters = insert c.toLower st.guessed_letters ∧
        ∀ m c₂, c₂.toLower = c.toLower →
          handle_input st' m [c₂] = (.submitted .invalidInput, st')) := by
  have hne := char_toLower_ne_special h
  have key : ∀ (s : RoundState) (m : Nat) (e : Char), e.toLower = c.toLower →
      handle_input s m [e] =
        (.submitted (submitGuess s [c.toLower]).1, (submitGuess s [c.toLower]).2) := by
    intro s m e he
    unfold handle_input
    dsimp only
    have hsl : str_lower [e] = [c.toLower] := by
      simp [str_lower, he]
    rw [hsl, if_neg (by simp [hne.1]), if_neg (by simp [hne.2])]
  constructor
  · rw [key st n c rfl, key st n c.toLower (char_toLower_idem h)]
  · intro hmem
    have hval : ¬(str_isalpha [c.toLower] = false ∨ ([c.toLower] : List Char).length ≠ 1) := by
      simp [str_isalpha, char_toLower_isAlpha h]
    by_cases hw : c.toLower ∈ st.word
    · refine ⟨{ st with guessed_letters := insert c.toLower st.guessed_letters }, ?_, rfl, ?_⟩
      · rw [key st n c rfl]
        unfold submitGuess
        rw [if_neg hval]
        simp only [List.headD_cons]
        rw [if_neg hmem, if_pos hw, decide_eq_true hw]
      · intro m c₂ he
        rw [key _ m c₂ he]
        unfold submitGuess
        rw [if_neg hval]
        simp only [List.headD_cons]
        rw [if_pos (Finset.mem_insert_self c.toLower st.guessed_letters)]
    · refine ⟨{ st with guessed_letters := insert c.toLower st.guessed_letters,
                        wrong_attempts := st.wrong_attempts + 1 }, ?_, rfl, ?_⟩
      · rw [key st n c rfl]
        unfold submitGuess
        rw [if_neg hval]
        simp only [List.headD_cons]
        rw [if_neg hmem, if_neg hw, decide_eq_false hw]
      · intro m c₂ he
        rw [key _ m c₂ he]
        unfold submitGuess
        rw [if_neg hval]
        simp only [List.headD_cons]
        rw [if_pos (Finset.mem_insert_self c.toLower st.guessed_letters)]

/-- Witness for C10: guessing `'A'` against the word `ab` behaves exactly
like guessing `'a'`. -/
theorem input_lowercased_witness :
    handle_input (init_state ['a', 'b'] 8 true) 0 ['A'] =
      handle_input (init_state ['a', 'b'] 8 true) 0 ['a'] ∧
    ((('a') : Char) ∉ (init_state ['a', 'b'] 8 true).guessed_letters →
      ∃ st', handle_input (init_state ['a', 'b'] 8 true) 0 ['A'] =
          (.submitted (.accepted (decide (('a' : Char) ∈ (init_state ['a', 'b'] 8 true).word))), st') ∧
        st'.guessed_letters = insert 'a' (init_state ['a', 'b'] 8 true).guessed_letters ∧
        ∀ m c₂, c₂.toLower = ('a' : Char) →
          handle_input st' m [c₂] = (.submitted .invalidInput, st')) :=
  input_lowercased (init_state ['a', 'b'] 8 true) 0 'A' (by decide)

end Hangman
